import Mathlib

/-!
Verification of the ndarray C library (ndarray.c / ndarray.h) against its
natural-language specification.

Shallow embedding conventions:
* An `ndarray_t` is modelled by the structure `ndarray` below.  The C struct
  carries `nd` (rank) separately from the `dimensions` pointer; every
  constructor in the source sets `nd` to the number of entries it allocates
  in `dimensions`, so here the rank is `dims.length`.
* The raw byte buffer `data` is modelled at element granularity as a
  `List Int`: slot `e` stands for the `elementSize` bytes starting at byte
  offset `e * elementSize`.  Machine floats (`double` / `float`) are modelled
  as idealized integers: every claim settled here is about which elements are
  combined and where results land, never about rounding.
* `malloc`-ed storage is uninitialized in C; the model fills fresh buffers
  with the fixed junk value `0`.  No proof of a positive property relies on
  this choice; it only appears in counterexamples for operations that provably
  never write the cells in question.
* Reads and writes past the end of a buffer are undefined behaviour in C;
  the model reads `0` (`List.getD`) and drops the write (`List.set` out of
  range is the identity).  Again, positive theorems never exercise this.
* Fallible C functions return `NULL`; the model returns `Option.none`.
* The pseudo-random source (`rand()` after `srand(time(NULL))`) is modelled
  as an explicit oracle `List Nat` consumed one entry per loop iteration;
  theorems about `ndarray_subsample` quantify over the oracle.
-/

/-- Character code of the dtype tag for double-precision float, C `'d'`. -/
def dtD : Nat := 100

/-- Character code of the dtype tag for single-precision float, C `'f'`. -/
def dtF : Nat := 102

/-- Character code of the dtype tag for the unsigned 64-bit integer, C `'i'`. -/
def dtI : Nat := 105

/-- Embeds `calculate_type_size` (ndarray.c lines 39-50): byte size of one
element of the given dtype tag; unrecognized tags fall back to the tag value
itself when it is below `sizeof(uint64_t) = 8`, else to `1`. -/
def calculate_type_size (dtype : Nat) : Nat :=
  if dtype = dtD then 8
  else if dtype = dtF then 4
  else if dtype = dtI then 8
  else if dtype < 8 then dtype else 1

/-- Embeds `calculate_size` / `ndarray_size` (ndarray.c lines 52-59 and
280-287): the running product `size *= dims[i]` starting from `1`. -/
def calculate_size (dims : List Nat) : Nat :=
  dims.foldl (fun s d => s * d) 1

/-- Model of the C struct `ndarray_t` (ndarray.h lines 33-39).  The rank `nd`
is `dims.length`; `strides` are byte strides as in the source. -/
structure ndarray where
  data : List Int
  dims : List Nat
  strides : List Nat
  dtype : Nat
  deriving Repr, DecidableEq

/-- Embeds the stride loop of `ndarray_create` (ndarray.c lines 74-78):
`strides[nd-1] = elementSize` and, walking `i` from `nd-2` down to `0`,
`strides[i] = strides[i+1] * dimensions[i+1]`. -/
def computeStrides (ts : Nat) : List Nat → List Nat
  | [] => []
  | [_] => [ts]
  | _ :: d2 :: rest =>
      let s := computeStrides ts (d2 :: rest)
      (s.headD 0 * d2) :: s

/-- Embeds `ndarray_create` (ndarray.c lines 61-86): copies the dimensions,
derives the byte strides row-major, and allocates `size * elementSize` bytes
(uninitialized; modelled as the junk value `0` per slot). -/
def ndarray_create (dims : List Nat) (dtype : Nat) : ndarray :=
  { data := List.replicate (calculate_size dims) 0
    dims := dims
    strides := computeStrides (calculate_type_size dtype) dims
    dtype := dtype }

/-- Embeds `ndarray_size` (ndarray.c lines 280-287). -/
def ndarray_size (a : ndarray) : Nat :=
  calculate_size a.dims

/-- Embeds the offset loop shared by `ndarray_get_point` and the
`ndarray_set_point*` family (ndarray.c lines 176-188, 191-252):
`offset = Σ_i strides[i] * idx[i]`, with no bounds check of any kind. -/
def ndarray_offset (a : ndarray) (idx : List Nat) : Nat :=
  (List.range a.dims.length).foldl
    (fun off i => off + a.strides.getD i 0 * idx.getD i 0) 0

/-- Embeds `ndarray_get_point` (ndarray.c lines 176-188).  The C function
returns the pointer `data + offset`; the model returns the byte offset. -/
def ndarray_get_point (a : ndarray) (idx : List Nat) : Nat :=
  ndarray_offset a idx

/-- Dereference of the pointer returned by `ndarray_get_point` at the
element granularity of the array's dtype: byte offset `off` addresses
element slot `off / elementSize`. -/
def ndarray_get_val (a : ndarray) (idx : List Nat) : Int :=
  a.data.getD (ndarray_get_point a idx / calculate_type_size a.dtype) 0

/-- Embeds `ndarray_set_point` (ndarray.c lines 242-252): computes the same
unchecked offset and copies exactly one element (`elementSize` bytes) there.
The dtype-matched writers `ndarray_set_point_d` / `_f` / `_u64` (lines
191-240) coincide with this on an array of the corresponding dtype, which is
how every claim uses them. -/
def ndarray_set_point (a : ndarray) (idx : List Nat) (v : Int) : ndarray :=
  { a with data := a.data.set (ndarray_offset a idx / calculate_type_size a.dtype) v }

/-- Row-major stride invariant of the specification (spec section 3):
`strides[rank-1] == elementSize(dtype)` and
`strides[i] == strides[i+1] * shape[i+1]` for `i < rank-1`. -/
def strideInvariant (a : ndarray) : Prop :=
  a.strides.length = a.dims.length ∧
  (1 ≤ a.dims.length →
    a.strides.getD (a.dims.length - 1) 0 = calculate_type_size a.dtype) ∧
  ∀ i, i + 1 < a.dims.length →
    a.strides.getD i 0 = a.strides.getD (i + 1) 0 * a.dims.getD (i + 1) 0

-- Basic facts about `computeStrides`.

theorem computeStrides_length (ts : Nat) (dims : List Nat) :
    (computeStrides ts dims).length = dims.length := by
  match dims with
  | [] => rfl
  | [_] => rfl
  | _ :: d2 :: rest =>
      simp only [computeStrides, List.length_cons]
      exact congrArg Nat.succ (computeStrides_length ts (d2 :: rest))

theorem computeStrides_last (ts : Nat) (dims : List Nat) (h : dims ≠ []) :
    (computeStrides ts dims).getD (dims.length - 1) 0 = ts := by
  match dims with
  | [] => exact absurd rfl h
  | [_] => rfl
  | d1 :: d2 :: rest =>
      have ih := computeStrides_last ts (d2 :: rest) (by simp)
      simp only [computeStrides, List.length_cons]
      simpa using ih

theorem computeStrides_step (ts : Nat) (dims : List Nat) :
    ∀ i, i + 1 < dims.length →
      (computeStrides ts dims).getD i 0 =
        (computeStrides ts dims).getD (i + 1) 0 * dims.getD (i + 1) 0 := by
  match dims with
  | [] => intro i hi; simp at hi
  | [_] => intro i hi; simp at hi
  | d1 :: d2 :: rest =>
      intro i hi
      match i with
      | 0 =>
          simp only [computeStrides, List.getD_cons_zero, List.getD_cons_succ]
          have hne : computeStrides ts (d2 :: rest) ≠ [] := by
            have := computeStrides_length ts (d2 :: rest)
            intro hc
            rw [hc] at this
            simp at this
          match hc : computeStrides ts (d2 :: rest) with
          | [] => exact absurd hc hne
          | s :: ss => simp
      | i + 1 =>
          have ih := computeStrides_step ts (d2 :: rest) i
            (by simpa using Nat.lt_of_succ_lt_succ hi)
          simp only [computeStrides, List.getD_cons_succ]
          exact ih

/-- Replaces the data buffer of an array, leaving shape, strides and dtype
untouched; the model of writing through `array->data`. -/
def setData (r : ndarray) (d : List Int) : ndarray :=
  { r with data := d }

/-- Embeds the shape-compatibility loop of `ndarray_add` / `ndarray_subtract`
/ `ndarray_compare` (ndarray.c lines 322-326): every axis extent must agree. -/
def shapesMatch (a b : ndarray) : Bool :=
  (List.range a.dims.length).all fun i => a.dims.getD i 0 == b.dims.getD i 0

/-- Embeds the elementwise loop shared by `ndarray_add` and
`ndarray_subtract` (ndarray.c lines 332-338 and 360-366): for each flat index
below `cnt`, the result element is written for dtype `'d'` and `'f'` and left
untouched for every other dtype tag. -/
def binopLoop (f : Int → Int → Int) (dtype : Nat) (ad bd : List Int)
    (cnt : Nat) (rd : List Int) : List Int :=
  (List.range cnt).foldl
    (fun d i =>
      if dtype = dtD then d.set i (f (ad.getD i 0) (bd.getD i 0))
      else if dtype = dtF then d.set i (f (ad.getD i 0) (bd.getD i 0))
      else d) rd

/-- Embeds `ndarray_add` (ndarray.c lines 316-341).  Note the loop bound
`a->dimensions[0] * a->dimensions[1]`: the element count of a rank-2 array,
not `product(shape)`. -/
def ndarray_add (result : Option ndarray) (a b : ndarray) : Option ndarray :=
  if a.dims.length ≠ b.dims.length ∨ a.dtype ≠ b.dtype then none
  else if ¬ shapesMatch a b then none
  else
    let r := result.getD (ndarray_create a.dims a.dtype)
    some (setData r
      (binopLoop (fun x y => x + y) a.dtype a.data b.data
        (a.dims.getD 0 0 * a.dims.getD 1 0) r.data))

/-- Embeds `ndarray_subtract` (ndarray.c lines 344-369); identical to
`ndarray_add` with the operator replaced by subtraction. -/
def ndarray_subtract (result : Option ndarray) (a b : ndarray) : Option ndarray :=
  if a.dims.length ≠ b.dims.length ∨ a.dtype ≠ b.dtype then none
  else if ¬ shapesMatch a b then none
  else
    let r := result.getD (ndarray_create a.dims a.dtype)
    some (setData r
      (binopLoop (fun x y => x - y) a.dtype a.data b.data
        (a.dims.getD 0 0 * a.dims.getD 1 0) r.data))

/-- Embeds the inner accumulation of `ndarray_dot` (ndarray.c lines 384-391):
`sum += a[i*K+k] * b[k*N+j]` for dtype `'d'` and `'f'`, nothing added for any
other tag (the C accumulator is a `double`; values are idealized here). -/
def dotEntry (a b : ndarray) (i j : Nat) : Int :=
  (List.range (a.dims.getD 1 0)).foldl
    (fun sum k =>
      if a.dtype = dtD then
        sum + a.data.getD (i * a.dims.getD 1 0 + k) 0 *
          b.data.getD (k * b.dims.getD 1 0 + j) 0
      else if a.dtype = dtF then
        sum + a.data.getD (i * a.dims.getD 1 0 + k) 0 *
          b.data.getD (k * b.dims.getD 1 0 + j) 0
      else sum) 0

/-- Embeds `ndarray_dot` (ndarray.c lines 372-401).  When the caller passes no
output array the result is allocated with `a->dimensions` — the shape of `a`
itself — while the writes go to flat position `i * b->dimensions[1] + j`. -/
def ndarray_dot (result : Option ndarray) (a b : ndarray) : Option ndarray :=
  if a.dims.length ≠ 2 ∨ b.dims.length ≠ 2 ∨ a.dtype ≠ b.dtype ∨
      a.dims.getD 1 0 ≠ b.dims.getD 0 0 then none
  else
    let r := result.getD (ndarray_create a.dims a.dtype)
    some (setData r
      ((List.range (a.dims.getD 0 0)).foldl (fun d i =>
        (List.range (b.dims.getD 1 0)).foldl (fun d j =>
          if a.dtype = dtD then d.set (i * b.dims.getD 1 0 + j) (dotEntry a b i j)
          else if a.dtype = dtF then d.set (i * b.dims.getD 1 0 + j) (dotEntry a b i j)
          else d) d) r.data))

/-- Embeds `ndarray_broadcast_add` (ndarray.c lines 404-431).  The working
extent is `rows = max(a.rows, b.rows)`, `cols = max(a.cols, b.cols)`; cells
outside an operand's extent contribute `0`; the output is allocated with
`a->dimensions` when the caller passes none, while writes go to
`i * cols + j`. -/
def ndarray_broadcast_add (result : Option ndarray) (a b : ndarray) : Option ndarray :=
  if a.dims.length ≠ 2 ∨ b.dims.length ≠ 2 ∨ a.dtype ≠ b.dtype then none
  else
    let rows := max (a.dims.getD 0 0) (b.dims.getD 0 0)
    let cols := max (a.dims.getD 1 0) (b.dims.getD 1 0)
    let r := result.getD (ndarray_create a.dims a.dtype)
    some (setData r
      ((List.range rows).foldl (fun d i =>
        (List.range cols).foldl (fun d j =>
          let va : Int :=
            if i < a.dims.getD 0 0 ∧ j < a.dims.getD 1 0 then
              a.data.getD (i * a.dims.getD 1 0 + j) 0 else 0
          let vb : Int :=
            if i < b.dims.getD 0 0 ∧ j < b.dims.getD 1 0 then
              b.data.getD (i * b.dims.getD 1 0 + j) 0 else 0
          if a.dtype = dtD then d.set (i * cols + j) (va + vb)
          else if a.dtype = dtF then d.set (i * cols + j) (va + vb)
          else d) d) r.data))

/-- Embeds `ndarray_transpose` (ndarray.c lines 292-313): rank must be 2, the
output is created with swapped dimensions, and the copy
`out[j*rows + i] = in[i*cols + j]` runs for dtype `'d'` and `'f'` only. -/
def ndarray_transpose (a : ndarray) : Option ndarray :=
  if a.dims.length ≠ 2 then none
  else
    let d0 := a.dims.getD 0 0
    let d1 := a.dims.getD 1 0
    let t := ndarray_create [d1, d0] a.dtype
    some (setData t
      ((List.range d0).foldl (fun d i =>
        (List.range d1).foldl (fun d j =>
          if a.dtype = dtD then d.set (j * d0 + i) (a.data.getD (i * d1 + j) 0)
          else if a.dtype = dtF then d.set (j * d0 + i) (a.data.getD (i * d1 + j) 0)
          else d) d) t.data))

/-- Embeds the index-decomposition loop of `ndarray_concat` (ndarray.c lines
565-569): `indices[i] = remainder / strides[i]; remainder %= strides[i]`,
dividing an element linear index by the byte strides of the result. -/
def decompose (strides : List Nat) (rem : Nat) : List Nat :=
  match strides with
  | [] => []
  | s :: rest => rem / s :: decompose rest (rem % s)

/-- Embeds `ndarray_concat` (ndarray.c lines 522-600).  After the validity
checks, each output element (by flat element index) is routed to `a` or `b`
by the decomposed `axis` coordinate and read back at
`src_idx = Σ indices[i] * src->strides[i]` — byte strides used as an element
index, exactly as in the source.  The source copies through `double` for
dtype `'d'` and through `float` for every other tag; at the element
granularity of this model both are the one-element copy below. -/
def ndarray_concat (a b : ndarray) (axis : Nat) : Option ndarray :=
  if a.dims.length ≠ b.dims.length then none
  else if a.dims.length ≤ axis then none
  else if a.dtype ≠ b.dtype then none
  else if ¬ ((List.range a.dims.length).all fun i =>
      i == axis || a.dims.getD i 0 == b.dims.getD i 0) then none
  else
    let newDims := (List.range a.dims.length).map fun i =>
      if i = axis then a.dims.getD i 0 + b.dims.getD i 0 else a.dims.getD i 0
    let result := ndarray_create newDims a.dtype
    some (setData result
      ((List.range (ndarray_size result)).foldl (fun d lin =>
        let indices := decompose result.strides lin
        let axisIdx := indices.getD axis 0
        let src := if axisIdx < a.dims.getD axis 0 then a else b
        let srcAxis :=
          if axisIdx < a.dims.getD axis 0 then axisIdx
          else axisIdx - a.dims.getD axis 0
        let srcIdx := (List.range src.dims.length).foldl
          (fun acc i =>
            acc + (if i = axis then srcAxis else indices.getD i 0) *
              src.strides.getD i 0) 0
        d.set lin (src.data.getD srcIdx 0)) result.data))

/-- Embeds one swap step of the shuffle in `ndarray_subsample` (ndarray.c
lines 499-504): `temp = ind[i]; ind[i] = ind[j]; ind[j] = temp`. -/
def swapAt (l : List Nat) (i j : Nat) : List Nat :=
  (l.set i (l.getD j 0)).set j (l.getD i 0)

/-- Embeds the index initialization and shuffle of `ndarray_subsample`
(ndarray.c lines 493-504): indices start as `0, 1, ..., d0-1` and for each
`i < d0` are swapped with position `rand() % d0`; the random draws are the
explicit oracle `rands`. -/
def shuffleIndices (rands : List Nat) (d0 : Nat) : List Nat :=
  (List.range d0).foldl (fun ind i => swapAt ind i (rands.getD i 0 % d0))
    (List.range d0)

/-- Embeds `ndarray_subsample` (ndarray.c lines 474-519): fails when
`n > dims[0]`; otherwise allocates shape `n, dims[1], ...`, shuffles the row
indices, and copies `dims[1]` elements per selected row — for dtype `'d'`
and `'f'` only. -/
def ndarray_subsample (rands : List Nat) (a : ndarray) (n : Nat) : Option ndarray :=
  if a.dims.getD 0 0 < n then none
  else
    let sub := ndarray_create (n :: a.dims.drop 1) a.dtype
    let indices := shuffleIndices rands (a.dims.getD 0 0)
    let d1 := a.dims.getD 1 0
    some (setData sub
      ((List.range n).foldl (fun d i =>
        (List.range d1).foldl (fun d j =>
          if a.dtype = dtD then
            d.set (i * d1 + j) (a.data.getD (indices.getD i 0 * d1 + j) 0)
          else if a.dtype = dtF then
            d.set (i * d1 + j) (a.data.getD (indices.getD i 0 * d1 + j) 0)
          else d) d) sub.data))

/-- Array literal shorthand: the array obtained from `ndarray_create dims
dtype` after filling the buffer with the given element values (row-major).
Its strides are exactly those `ndarray_create` derives. -/
def mkArr (dims : List Nat) (dtype : Nat) (vals : List Int) : ndarray :=
  { data := vals
    dims := dims
    strides := computeStrides (calculate_type_size dtype) dims
    dtype := dtype }

theorem strideInvariant_setData (r : ndarray) (d : List Int) :
    strideInvariant (setData r d) ↔ strideInvariant r :=
  Iff.rfl

theorem strideInvariant_create (dims : List Nat) (dtype : Nat) (h : dims ≠ []) :
    strideInvariant (ndarray_create dims dtype) := by
  refine ⟨computeStrides_length _ _, fun _ => computeStrides_last _ _ h, ?_⟩
  exact computeStrides_step _ _

theorem foldl_add_eq_sum (f : Nat → Nat) (init n : Nat) :
    (List.range n).foldl (fun off i => off + f i) init =
      init + ∑ i ∈ Finset.range n, f i := by
  induction n with
  | zero => simp
  | succ n ih =>
      rw [List.range_succ, List.foldl_append, Finset.sum_range_succ, ih]
      simp [Nat.add_assoc]

theorem getD_set_eq (l : List Int) (i : Nat) (a : Int) (h : i < l.length) :
    (l.set i a).getD i 0 = a := by
  simp [List.getD_eq_getElem?_getD, List.getElem?_set_eq_of_lt a h]

theorem getD_set_ne (l : List Int) (i j : Nat) (a : Int) (h : i ≠ j) :
    (l.set i a).getD j 0 = l.getD j 0 := by
  simp [List.getD_eq_getElem?_getD, List.getElem?_set_ne h]

theorem foldl_id (l : List Nat) (init : List Int) :
    l.foldl (fun d _ => d) init = init := by
  induction l generalizing init with
  | nil => rfl
  | cons x xs ih => exact ih init

theorem foldl_set_length (g : Nat → Int) (pos : Nat → Nat) (l : List Nat)
    (init : List Int) :
    (l.foldl (fun d k => d.set (pos k) (g k)) init).length = init.length := by
  induction l generalizing init with
  | nil => rfl
  | cons x xs ih => rw [List.foldl_cons, ih, List.length_set]

theorem foldl_set_untouched (g : Nat → Int) (pos : Nat → Nat) (l : List Nat)
    (init : List Int) (q : Nat) (h : ∀ k ∈ l, pos k ≠ q) :
    (l.foldl (fun d k => d.set (pos k) (g k)) init).getD q 0 = init.getD q 0 := by
  induction l generalizing init with
  | nil => rfl
  | cons x xs ih =>
      rw [List.foldl_cons, ih _ (fun k hk => h k (List.mem_cons_of_mem x hk))]
      exact getD_set_ne _ _ _ _ (h x (List.mem_cons_self x xs))

theorem foldl_set_range_getD (g : Nat → Int) (pos : Nat → Nat) (m : Nat)
    (init : List Int)
    (hinj : ∀ k1 < m, ∀ k2 < m, pos k1 = pos k2 → k1 = k2)
    (hlt : ∀ k < m, pos k < init.length) :
    ∀ k < m,
      ((List.range m).foldl (fun d i => d.set (pos i) (g i)) init).getD (pos k) 0 =
        g k := by
  induction m with
  | zero => intro k hk; omega
  | succ m ih =>
      intro k hk
      rw [List.range_succ, List.foldl_append, List.foldl_cons, List.foldl_nil]
      rcases Nat.lt_succ_iff_lt_or_eq.mp hk with hk' | rfl
      · have hne : pos m ≠ pos k := fun he =>
          Nat.lt_irrefl m (by
            have := hinj m (Nat.lt_succ_self m) k (Nat.lt_succ_of_lt hk') he
            omega)
        rw [getD_set_ne _ _ _ _ hne]
        exact ih
          (fun k1 h1 k2 h2 he =>
            hinj k1 (Nat.lt_succ_of_lt h1) k2 (Nat.lt_succ_of_lt h2) he)
          (fun k' h' => hlt k' (Nat.lt_succ_of_lt h')) k hk'
      · rw [getD_set_eq]
        rw [foldl_set_length]
        exact hlt k (Nat.lt_succ_self k)

theorem foldl2_set_length (g : Nat → Nat → Int) (pos : Nat → Nat → Nat)
    (l : List Nat) (n : Nat) (init : List Int) :
    (l.foldl
      (fun d i => (List.range n).foldl (fun d j => d.set (pos i j) (g i j)) d)
      init).length = init.length := by
  induction l generalizing init with
  | nil => rfl
  | cons x xs ih => rw [List.foldl_cons, ih, foldl_set_length]

theorem foldl2_set_range_getD (g : Nat → Nat → Int) (pos : Nat → Nat → Nat)
    (m n : Nat) (init : List Int)
    (hinj : ∀ i1 < m, ∀ j1 < n, ∀ i2 < m, ∀ j2 < n,
      pos i1 j1 = pos i2 j2 → i1 = i2 ∧ j1 = j2)
    (hlt : ∀ i < m, ∀ j < n, pos i j < init.length) :
    ∀ i < m, ∀ j < n,
      ((List.range m).foldl
        (fun d i => (List.range n).foldl (fun d j => d.set (pos i j) (g i j)) d)
        init).getD (pos i j) 0 = g i j := by
  induction m with
  | zero => intro i hi; omega
  | succ m ih =>
      intro i hi j hj
      rw [List.range_succ, List.foldl_append, List.foldl_cons, List.foldl_nil]
      rcases Nat.lt_succ_iff_lt_or_eq.mp hi with hi' | rfl
      · have hne : ∀ j' ∈ List.range n, pos m j' ≠ pos i j := by
          intro j' hj' he
          have hj'n : j' < n := List.mem_range.mp hj'
          have := hinj m (Nat.lt_succ_self m) j' hj'n i (Nat.lt_succ_of_lt hi') j hj he
          omega
        rw [foldl_set_untouched _ _ _ _ _ hne]
        exact ih
          (fun i1 h1 j1 hj1 i2 h2 j2 hj2 he =>
            hinj i1 (Nat.lt_succ_of_lt h1) j1 hj1 i2 (Nat.lt_succ_of_lt h2) j2 hj2 he)
          (fun i' h' j' hj' => hlt i' (Nat.lt_succ_of_lt h') j' hj') i hi' j hj
      · have hlen :
            ((List.range i).foldl
              (fun d i => (List.range n).foldl
                (fun d j => d.set (pos i j) (g i j)) d) init).length =
              init.length := foldl2_set_length g pos _ n init
        refine foldl_set_range_getD (g i) (pos i) n _ ?_ ?_ j hj
        · intro j1 h1 j2 h2 he
          exact (hinj i (Nat.lt_succ_self i) j1 h1 i (Nat.lt_succ_self i) j2 h2 he).2
        · intro j' h'
          rw [hlen]
          exact hlt i (Nat.lt_succ_self i) j' h'

theorem pair_lt (d1 : Nat) (i j m : Nat) (hi : i < m) (hj : j < d1) :
    i * d1 + j < m * d1 := by
  calc i * d1 + j < i * d1 + d1 := Nat.add_lt_add_left hj _
  _ = (i + 1) * d1 := by ring
  _ ≤ m * d1 := Nat.mul_le_mul_right d1 hi

theorem pair_inj (d1 : Nat) (i1 j1 i2 j2 : Nat) (h1 : j1 < d1) (h2 : j2 < d1)
    (h : i1 * d1 + j1 = i2 * d1 + j2) : i1 = i2 ∧ j1 = j2 := by
  have hd : 0 < d1 := Nat.lt_of_le_of_lt (Nat.zero_le _) h1
  have e1 : (i1 * d1 + j1) / d1 = i1 := by
    rw [Nat.add_comm, Nat.add_mul_div_right _ _ hd, Nat.div_eq_of_lt h1, Nat.zero_add]
  have e2 : (i2 * d1 + j2) / d1 = i2 := by
    rw [Nat.add_comm, Nat.add_mul_div_right _ _ hd, Nat.div_eq_of_lt h2, Nat.zero_add]
  have m1 : (i1 * d1 + j1) % d1 = j1 := by
    rw [Nat.add_comm, Nat.add_mul_mod_self_right, Nat.mod_eq_of_lt h1]
  have m2 : (i2 * d1 + j2) % d1 = j2 := by
    rw [Nat.add_comm, Nat.add_mul_mod_self_right, Nat.mod_eq_of_lt h2]
  exact ⟨by rw [← e1, ← e2, h], by rw [← m1, ← m2, h]⟩

theorem binopLoop_float (f : Int → Int → Int) (dtype : Nat) (ad bd : List Int)
    (cnt : Nat) (rd : List Int) (h : dtype = dtD ∨ dtype = dtF) :
    binopLoop f dtype ad bd cnt rd =
      (List.range cnt).foldl
        (fun d i => d.set i (f (ad.getD i 0) (bd.getD i 0))) rd := by
  unfold binopLoop
  rcases h with h | h <;> subst h <;> simp [dtD, dtF]

theorem binopLoop_other (f : Int → Int → Int) (dtype : Nat) (ad bd : List Int)
    (cnt : Nat) (rd : List Int) (h1 : dtype ≠ dtD) (h2 : dtype ≠ dtF) :
    binopLoop f dtype ad bd cnt rd = rd := by
  unfold binopLoop
  simp only [if_neg h1, if_neg h2]
  exact foldl_id _ _

theorem headD_eq_getD_zero (l : List Nat) (d : Nat) : l.headD d = l.getD 0 d := by
  cases l <;> rfl

theorem foldl_mul_eq (init : Nat) (l : List Nat) :
    l.foldl (fun s d => s * d) init = init * l.prod := by
  induction l generalizing init with
  | nil => simp
  | cons x xs ih => simp [ih, Nat.mul_assoc]

theorem calculate_size_eq_prod (dims : List Nat) :
    calculate_size dims = dims.prod := by
  unfold calculate_size
  rw [foldl_mul_eq, Nat.one_mul]

theorem computeStrides_getD (ts : Nat) (dims : List Nat) :
    ∀ i < dims.length,
      (computeStrides ts dims).getD i 0 = ts * (dims.drop (i + 1)).prod := by
  match dims with
  | [] => intro i hi; simp at hi
  | [d] =>
      intro i hi
      match i with
      | 0 => simp [computeStrides]
      | i + 1 => simp at hi
  | d1 :: d2 :: rest =>
      intro i hi
      match i with
      | 0 =>
          have ih := computeStrides_getD ts (d2 :: rest) 0 (by simp)
          simp only [computeStrides, List.getD_cons_zero]
          rw [headD_eq_getD_zero, ih]
          simp [List.prod_cons]
          ring
      | i + 1 =>
          have ih := computeStrides_getD ts (d2 :: rest) i
            (by simpa using Nat.lt_of_succ_lt_succ hi)
          simp only [computeStrides, List.getD_cons_succ, List.drop_succ_cons]
          exact ih

theorem computeStrides_cons_getD_succ (ts d : Nat) (ds : List Nat) (i : Nat) :
    (computeStrides ts (d :: ds)).getD (i + 1) 0 =
      (computeStrides ts ds).getD i 0 := by
  cases ds with
  | nil => simp [computeStrides]
  | cons d2 rest => simp [computeStrides]

/-- Mixed-radix value of an index tuple with respect to a shape: the logical
(element) flat index of the cell addressed by `idx` in row-major order. -/
def sumIdx : List Nat → List Nat → Nat
  | _ :: ds, i :: is => i * ds.prod + sumIdx ds is
  | _, _ => 0

theorem sum_strides_eq (ts : Nat) (dims idx : List Nat)
    (hlen : idx.length = dims.length) :
    ∑ i ∈ Finset.range dims.length,
      (computeStrides ts dims).getD i 0 * idx.getD i 0 =
      ts * sumIdx dims idx := by
  induction dims generalizing idx with
  | nil => simp [sumIdx]
  | cons d ds ih =>
      obtain ⟨i0, is, rfl⟩ : ∃ i0 is, idx = i0 :: is := by
        cases idx with
        | nil => simp at hlen
        | cons x xs => exact ⟨x, xs, rfl⟩
      rw [List.length_cons, Finset.sum_range_succ']
      have hf : ∀ i ∈ Finset.range ds.length,
          (computeStrides ts (d :: ds)).getD (i + 1) 0 *
            (i0 :: is).getD (i + 1) 0 =
          (computeStrides ts ds).getD i 0 * is.getD i 0 := by
        intro i _
        rw [computeStrides_cons_getD_succ, List.getD_cons_succ]
      rw [Finset.sum_congr rfl hf, ih is (by simpa using hlen)]
      have h0 : (computeStrides ts (d :: ds)).getD 0 0 = ts * ds.prod := by
        have := computeStrides_getD ts (d :: ds) 0 (by simp)
        simpa using this
      rw [h0, List.getD_cons_zero]
      show ts * sumIdx ds is + ts * ds.prod * i0 =
        ts * (i0 * ds.prod + sumIdx ds is)
      ring

theorem sumIdx_lt (dims idx : List Nat) (hlen : idx.length = dims.length)
    (hb : ∀ i < dims.length, idx.getD i 0 < dims.getD i 0) :
    sumIdx dims idx < dims.prod := by
  induction dims generalizing idx with
  | nil => simp [sumIdx]
  | cons d ds ih =>
      obtain ⟨i0, is, rfl⟩ : ∃ i0 is, idx = i0 :: is := by
        cases idx with
        | nil => simp at hlen
        | cons x xs => exact ⟨x, xs, rfl⟩
      have h0 : i0 < d := by simpa using hb 0 (by simp)
      have hS := ih is (by simpa using hlen)
        (fun i hi => by simpa using hb (i + 1) (by simpa using Nat.succ_lt_succ hi))
      show i0 * ds.prod + sumIdx ds is < (d :: ds).prod
      rw [List.prod_cons]
      calc i0 * ds.prod + sumIdx ds is < i0 * ds.prod + ds.prod :=
        Nat.add_lt_add_left hS _
      _ = (i0 + 1) * ds.prod := by ring
      _ ≤ d * ds.prod := Nat.mul_le_mul_right _ h0

theorem ite_dtype_collapse {α : Type} (dtype : Nat) (x y : α)
    (h : dtype = dtD ∨ dtype = dtF) :
    (if dtype = dtD then x else if dtype = dtF then x else y) = x := by
  rcases h with h | h <;> subst h <;> simp [dtD, dtF]

theorem calculate_size_pair (d0 d1 : Nat) : calculate_size [d0, d1] = d0 * d1 := by
  simp [calculate_size]

theorem shapesMatch_of_eq (a b : ndarray) (h : b.dims = a.dims) :
    shapesMatch a b = true := by
  unfold shapesMatch
  rw [h]
  simp

theorem ndarray_add_eq (a b : ndarray) (res : Option ndarray)
    (hlen : b.dims.length = a.dims.length) (hdt : b.dtype = a.dtype)
    (hsm : shapesMatch a b = true) :
    ndarray_add res a b =
      some (setData (res.getD (ndarray_create a.dims a.dtype))
        (binopLoop (fun x y => x + y) a.dtype a.data b.data
          (a.dims.getD 0 0 * a.dims.getD 1 0)
          (res.getD (ndarray_create a.dims a.dtype)).data)) := by
  unfold ndarray_add
  rw [if_neg (not_or.mpr ⟨not_not_intro hlen.symm, not_not_intro hdt.symm⟩),
    if_neg (not_not_intro hsm)]

theorem ndarray_subtract_eq (a b : ndarray) (res : Option ndarray)
    (hlen : b.dims.length = a.dims.length) (hdt : b.dtype = a.dtype)
    (hsm : shapesMatch a b = true) :
    ndarray_subtract res a b =
      some (setData (res.getD (ndarray_create a.dims a.dtype))
        (binopLoop (fun x y => x - y) a.dtype a.data b.data
          (a.dims.getD 0 0 * a.dims.getD 1 0)
          (res.getD (ndarray_create a.dims a.dtype)).data)) := by
  unfold ndarray_subtract
  rw [if_neg (not_or.mpr ⟨not_not_intro hlen.symm, not_not_intro hdt.symm⟩),
    if_neg (not_not_intro hsm)]

theorem binop_loop_getD (f : Int → Int → Int) (dtype : Nat) (ad bd : List Int)
    (cnt : Nat) (rd : List Int) (hft : dtype = dtD ∨ dtype = dtF)
    (hlen : cnt ≤ rd.length) :
    ∀ i < cnt,
      (binopLoop f dtype ad bd cnt rd).getD i 0 =
        f (ad.getD i 0) (bd.getD i 0) := by
  intro i hi
  rw [binopLoop_float _ _ _ _ _ _ hft]
  exact foldl_set_range_getD (fun k => f (ad.getD k 0) (bd.getD k 0))
    (fun k => k) cnt rd (fun k1 _ k2 _ he => he)
    (fun k hk => Nat.lt_of_lt_of_le hk hlen) i hi

theorem ndarray_transpose_eq (a : ndarray) (d0 d1 : Nat) (hda : a.dims = [d0, d1])
    (hft : a.dtype = dtD ∨ a.dtype = dtF) :
    ndarray_transpose a =
      some (setData (ndarray_create [d1, d0] a.dtype)
        ((List.range d0).foldl (fun d i =>
          (List.range d1).foldl (fun d j =>
            d.set (j * d0 + i) (a.data.getD (i * d1 + j) 0)) d)
          (ndarray_create [d1, d0] a.dtype).data)) := by
  unfold ndarray_transpose
  rw [if_neg (not_not_intro (show a.dims.length = 2 by rw [hda]; rfl))]
  simp only [hda, List.getD_cons_zero, List.getD_cons_succ]
  have hF : (fun (d : List Int) i =>
        (List.range d1).foldl (fun d j =>
          if a.dtype = dtD then d.set (j * d0 + i) (a.data.getD (i * d1 + j) 0)
          else if a.dtype = dtF then d.set (j * d0 + i) (a.data.getD (i * d1 + j) 0)
          else d) d) =
      fun (d : List Int) i =>
        (List.range d1).foldl (fun d j =>
          d.set (j * d0 + i) (a.data.getD (i * d1 + j) 0)) d := by
    funext d i
    congr 1
    funext d j
    exact ite_dtype_collapse a.dtype _ _ hft
  rw [hF]

theorem set_cons_perm (xs : List Nat) (k : Nat) (x : Nat) (hk : k < xs.length) :
    (xs.getD k 0 :: xs.set k x).Perm (x :: xs) := by
  induction xs generalizing k with
  | nil => simp at hk
  | cons z zs ih =>
      match k with
      | 0 => exact List.Perm.swap x z zs
      | k + 1 =>
          show (zs.getD k 0 :: z :: zs.set k x).Perm (x :: z :: zs)
          have h1 : (zs.getD k 0 :: z :: zs.set k x).Perm
              (z :: zs.getD k 0 :: zs.set k x) := List.Perm.swap z (zs.getD k 0) _
          have h2 : (z :: zs.getD k 0 :: zs.set k x).Perm (z :: x :: zs) :=
            (ih k (by simpa using hk)).cons z
          have h3 : (z :: x :: zs).Perm (x :: z :: zs) := List.Perm.swap x z zs
          exact (h1.trans h2).trans h3

theorem swapAt_perm (l : List Nat) (i j : Nat) (hi : i < l.length)
    (hj : j < l.length) : (swapAt l i j).Perm l := by
  induction l generalizing i j with
  | nil => simp at hi
  | cons x xs ih =>
      match i, j with
      | 0, 0 =>
          show ((( x :: xs).set 0 ((x :: xs).getD 0 0)).set 0
            ((x :: xs).getD 0 0)).Perm (x :: xs)
          simp
      | 0, j + 1 =>
          show (xs.getD j 0 :: xs.set j x).Perm (x :: xs)
          exact set_cons_perm xs j x (by simpa using hj)
      | i + 1, 0 =>
          show (xs.getD i 0 :: xs.set i x).Perm (x :: xs)
          exact set_cons_perm xs i x (by simpa using hi)
      | i + 1, j + 1 =>
          show (x :: (xs.set i (xs.getD j 0)).set j (xs.getD i 0)).Perm (x :: xs)
          exact (ih i j (by simpa using hi) (by simpa using hj)).cons x

theorem foldl_swap_perm (d0 : Nat) (f : Nat → Nat) (hf : ∀ i, f i < d0) :
    ∀ (l init : List Nat), (∀ i ∈ l, i < d0) → init.Perm (List.range d0) →
      (l.foldl (fun ind i => swapAt ind i (f i)) init).Perm (List.range d0) := by
  intro l
  induction l with
  | nil => intro init _ hp; exact hp
  | cons x xs ih =>
      intro init hl hp
      rw [List.foldl_cons]
      have hlen : init.length = d0 := by rw [hp.length_eq, List.length_range]
      refine ih _ (fun i hi => hl i (List.mem_cons_of_mem x hi)) ?_
      exact (swapAt_perm init x (f x)
        (by rw [hlen]; exact hl x (List.mem_cons_self x xs))
        (by rw [hlen]; exact hf x)).trans hp

theorem shuffleIndices_perm (rands : List Nat) (d0 : Nat) :
    (shuffleIndices rands d0).Perm (List.range d0) := by
  rcases Nat.eq_zero_or_pos d0 with h | h
  · subst h
    exact List.Perm.refl _
  · exact foldl_swap_perm d0 (fun i => rands.getD i 0 % d0)
      (fun i => Nat.mod_lt _ h) (List.range d0) (List.range d0)
      (fun i hi => List.mem_range.mp hi) (List.Perm.refl _)

theorem ndarray_subsample_eq (rands : List Nat) (a : ndarray) (d0 d1 n : Nat)
    (hda : a.dims = [d0, d1]) (hn : n ≤ d0)
    (hft : a.dtype = dtD ∨ a.dtype = dtF) :
    ndarray_subsample rands a n =
      some (setData (ndarray_create [n, d1] a.dtype)
        ((List.range n).foldl (fun d i =>
          (List.range d1).foldl (fun d j =>
            d.set (i * d1 + j)
              (a.data.getD
                ((shuffleIndices rands d0).getD i 0 * d1 + j) 0)) d)
          (ndarray_create [n, d1] a.dtype).data)) := by
  unfold ndarray_subsample
  rw [if_neg (Nat.not_lt.mpr (show n ≤ a.dims.getD 0 0 by rw [hda]; exact hn))]
  simp only [hda, List.getD_cons_zero, List.getD_cons_succ,
    List.drop_succ_cons, List.drop_zero]
  have hF : (fun (d : List Int) i =>
        (List.range d1).foldl (fun d j =>
          if a.dtype = dtD then
            d.set (i * d1 + j)
              (a.data.getD ((shuffleIndices rands d0).getD i 0 * d1 + j) 0)
          else if a.dtype = dtF then
            d.set (i * d1 + j)
              (a.data.getD ((shuffleIndices rands d0).getD i 0 * d1 + j) 0)
          else d) d) =
      fun (d : List Int) i =>
        (List.range d1).foldl (fun d j =>
          d.set (i * d1 + j)
            (a.data.getD
              ((shuffleIndices rands d0).getD i 0 * d1 + j) 0)) d := by
    funext d i
    congr 1
    funext d j
    exact ite_dtype_collapse a.dtype _ _ hft
  rw [hF]

theorem strideInvariant_transpose (a r : ndarray)
    (h : ndarray_transpose a = some r) : strideInvariant r := by
  unfold ndarray_transpose at h
  split at h
  · exact Option.noConfusion h
  · obtain rfl := (Option.some.inj h).symm
    exact (strideInvariant_setData _ _).mpr (strideInvariant_create _ _ (by simp))

theorem strideInvariant_add (res : Option ndarray) (a b r : ndarray)
    (hres : ∀ x ∈ res, strideInvariant x) (hne : a.dims ≠ [])
    (h : ndarray_add res a b = some r) : strideInvariant r := by
  unfold ndarray_add at h
  split at h
  · exact Option.noConfusion h
  · split at h
    · exact Option.noConfusion h
    · obtain rfl := (Option.some.inj h).symm
      rw [strideInvariant_setData]
      cases res with
      | none => exact strideInvariant_create _ _ hne
      | some x => exact hres x rfl

theorem strideInvariant_subtract (res : Option ndarray) (a b r : ndarray)
    (hres : ∀ x ∈ res, strideInvariant x) (hne : a.dims ≠ [])
    (h : ndarray_subtract res a b = some r) : strideInvariant r := by
  unfold ndarray_subtract at h
  split at h
  · exact Option.noConfusion h
  · split at h
    · exact Option.noConfusion h
    · obtain rfl := (Option.some.inj h).symm
      rw [strideInvariant_setData]
      cases res with
      | none => exact strideInvariant_create _ _ hne
      | some x => exact hres x rfl

theorem strideInvariant_dot (res : Option ndarray) (a b r : ndarray)
    (hres : ∀ x ∈ res, strideInvariant x) (hne : a.dims ≠ [])
    (h : ndarray_dot res a b = some r) : strideInvariant r := by
  unfold ndarray_dot at h
  split at h
  · exact Option.noConfusion h
  · obtain rfl := (Option.some.inj h).symm
    rw [strideInvariant_setData]
    cases res with
    | none => exact strideInvariant_create _ _ hne
    | some x => exact hres x rfl

theorem strideInvariant_broadcast_add (res : Option ndarray) (a b r : ndarray)
    (hres : ∀ x ∈ res, strideInvariant x) (hne : a.dims ≠ [])
    (h : ndarray_broadcast_add res a b = some r) : strideInvariant r := by
  unfold ndarray_broadcast_add at h
  split at h
  · exact Option.noConfusion h
  · obtain rfl := (Option.some.inj h).symm
    rw [strideInvariant_setData]
    cases res with
    | none => exact strideInvariant_create _ _ hne
    | some x => exact hres x rfl

theorem strideInvariant_concat (a b : ndarray) (axis : Nat) (r : ndarray)
    (h : ndarray_concat a b axis = some r) : strideInvariant r := by
  unfold ndarray_concat at h
  split at h
  · exact Option.noConfusion h
  · split at h
    · exact Option.noConfusion h
    · split at h
      · exact Option.noConfusion h
      · split at h
        · exact Option.noConfusion h
        · obtain rfl := (Option.some.inj h).symm
          rw [strideInvariant_setData]
          apply strideInvariant_create
          rename_i hlen _ _ _
          intro hc
          have : a.dims.length = 0 := by
            simpa using congrArg List.length hc
          omega

theorem strideInvariant_subsample (rands : List Nat) (a : ndarray) (n : Nat)
    (r : ndarray) (h : ndarray_subsample rands a n = some r) :
    strideInvariant r := by
  unfold ndarray_subsample at h
  split at h
  · exact Option.noConfusion h
  · obtain rfl := (Option.some.inj h).symm
    rw [strideInvariant_setData]
    exact strideInvariant_create _ _ (by simp)

/-- C6: for every array produced by `create(shape, rank, dtype)` with
`rank >= 1` the row-major stride invariant holds
(`strides[rank-1] = elementSize(dtype)` and
`strides[i] = strides[i+1] * shape[i+1]`), and it is preserved by every
subsequent operation: element writes never touch shape, strides or dtype,
and each operation's output array (freshly allocated through
`ndarray_create`, or a caller-supplied output that already satisfied the
invariant) satisfies it as well. -/
theorem C6_stride_invariant (dims : List Nat) (dtype : Nat) (h : dims ≠ []) :
    strideInvariant (ndarray_create dims dtype) ∧
    (∀ (a : ndarray) (idx : List Nat) (v : Int),
      (ndarray_set_point a idx v).strides = a.strides ∧
      (ndarray_set_point a idx v).dims = a.dims ∧
      (ndarray_set_point a idx v).dtype = a.dtype) ∧
    (∀ a r, ndarray_transpose a = some r → strideInvariant r) ∧
    (∀ res a b r, (∀ x ∈ res, strideInvariant x) → a.dims ≠ [] →
      ndarray_add res a b = some r → strideInvariant r) ∧
    (∀ res a b r, (∀ x ∈ res, strideInvariant x) → a.dims ≠ [] →
      ndarray_subtract res a b = some r → strideInvariant r) ∧
    (∀ res a b r, (∀ x ∈ res, strideInvariant x) → a.dims ≠ [] →
      ndarray_dot res a b = some r → strideInvariant r) ∧
    (∀ res a b r, (∀ x ∈ res, strideInvariant x) → a.dims ≠ [] →
      ndarray_broadcast_add res a b = some r → strideInvariant r) ∧
    (∀ a b axis r, ndarray_concat a b axis = some r → strideInvariant r) ∧
    (∀ rands a n r, ndarray_subsample rands a n = some r → strideInvariant r) := by
  refine ⟨strideInvariant_create dims dtype h, fun a idx v => ⟨rfl, rfl, rfl⟩,
    fun a r hr => strideInvariant_transpose a r hr,
    fun res a b r h1 h2 h3 => strideInvariant_add res a b r h1 h2 h3,
    fun res a b r h1 h2 h3 => strideInvariant_subtract res a b r h1 h2 h3,
    fun res a b r h1 h2 h3 => strideInvariant_dot res a b r h1 h2 h3,
    fun res a b r h1 h2 h3 => strideInvariant_broadcast_add res a b r h1 h2 h3,
    fun a b axis r hr => strideInvariant_concat a b axis r hr,
    fun rands a n r hr => strideInvariant_subsample rands a n r hr⟩

/-- Witness for C6 at the concrete input of spec scenario 1:
`create([2,3], float64)` has `strides = [24, 8]`, and the invariant package
holds there. -/
theorem C6_stride_invariant_witness :
    (ndarray_create [2, 3] dtD).strides = [24, 8] ∧
    strideInvariant (ndarray_create [2, 3] dtD) :=
  ⟨by decide, (C6_stride_invariant [2, 3] dtD (by decide)).1⟩

/-- C5, counterexample: the claim says an index outside the shape must fail
with `IndexOutOfRangeError`, but `ndarray_get_point` and the
`ndarray_set_point` family perform no bounds check whatsoever: on the
1-dimensional double array of shape `[2]`, index `5` is out of range, yet
`get` happily yields the byte offset `5 * 8 = 40` and `set` returns without
any error indication. -/
theorem C5_counterexample :
    ¬ 5 < (ndarray_create [2] dtD).dims.getD 0 0 ∧
    ndarray_get_point (ndarray_create [2] dtD) [5] = 40 ∧
    (ndarray_set_point (ndarray_create [2] dtD) [5] 1).dims = [2] := by
  decide

/-- C5 as amended: `get` and `set` accept every index tuple without any
bounds check; the accessed byte offset is always
`Σ_i idx[i] * strides[i]`, and `set` merely writes one element at that
unchecked offset, never reporting a failure. -/
theorem C5_offset_unchecked (a : ndarray) (idx : List Nat) (v : Int) :
    ndarray_get_point a idx =
      ∑ i ∈ Finset.range a.dims.length, a.strides.getD i 0 * idx.getD i 0 ∧
    ndarray_set_point a idx v =
      setData a (a.data.set
        (ndarray_get_point a idx / calculate_type_size a.dtype) v) := by
  constructor
  · unfold ndarray_get_point ndarray_offset
    exact (foldl_add_eq_sum _ 0 _).trans (Nat.zero_add _)
  · rfl

/-- C1: `dot` on mismatched inner dimension does fail (second conjunct), but
on `A : 2x3` times `B : 3x2` the result is allocated with `A`'s shape
`[2,3]` instead of the correct `[2,2]`, while the matrix-product values
`[[58,64],[139,154]]` are written at flat positions `i*2 + j` — the shape
the claim promises is not the shape the code produces. -/
theorem C1_dot_allocates_input_shape :
    ndarray_dot none (mkArr [2, 3] dtD [1, 2, 3, 4, 5, 6])
        (mkArr [3, 2] dtD [7, 8, 9, 10, 11, 12]) =
      some (mkArr [2, 3] dtD [58, 64, 139, 154, 0, 0]) ∧
    ([2, 3] : List Nat) ≠ [2, 2] ∧
    ndarray_dot none (mkArr [2, 3] dtD [1, 2, 3, 4, 5, 6])
        (mkArr [2, 3] dtD [7, 8, 9, 10, 11, 12]) = none := by
  refine ⟨by decide, by decide, by decide⟩

/-- C2: `concat` of `A = [[1,2,3],[4,5,6]]` and `B = [[7,8,9],[10,11,12]]`
along axis 0 produces the correct shape `[4,3]` but garbage contents: the
linear-index decomposition divides element indices by byte strides, so
result element `(0,1)` receives `A[0,0] = 1` instead of `A[0,1] = 2` (and
elements beyond index 7 come from reads past the end of `A`'s buffer,
modelled as 0).  Slicing the result does not recover `A` and `B`. -/
theorem C2_concat_wrong_elements :
    ndarray_concat (mkArr [2, 3] dtD [1, 2, 3, 4, 5, 6])
        (mkArr [2, 3] dtD [7, 8, 9, 10, 11, 12]) 0 =
      some (mkArr [4, 3] dtD [1, 1, 1, 1, 1, 1, 1, 1, 0, 0, 0, 0]) ∧
    (1 : Int) ≠ 2 := by
  refine ⟨by decide, by decide⟩

/-- C3: `broadcastAdd` of `A : 1x1` and `B : 2x2` should produce the working
shape `[max 1 2, max 1 2] = [2,2]`, but the output is allocated with `A`'s
shape `[1,1]`; only the single cell `(0,0) = A[0,0] + B[0,0] = 6` survives
(the three remaining writes land outside the undersized buffer). -/
theorem C3_broadcast_allocates_input_shape :
    ndarray_broadcast_add none (mkArr [1, 1] dtD [5])
        (mkArr [2, 2] dtD [1, 2, 3, 4]) =
      some (mkArr [1, 1] dtD [6]) ∧
    ([1, 1] : List Nat) ≠ [2, 2] := by
  refine ⟨by decide, by decide⟩

/-- C4, counterexample: on rank-3 arrays of shape `[1,1,2]` the elementwise
loop runs for `dimensions[0] * dimensions[1] = 1` iterations instead of
`product(shape) = 2`, so with a caller-supplied output prefilled with the
sentinel 99, `add([1,2], [10,20])` updates only element 0 and returns
`[11, 99]` — element 1 is not `2 + 20 = 22` as the claim requires. -/
theorem C4_counterexample :
    ndarray_add (some (mkArr [1, 1, 2] dtD [99, 99]))
        (mkArr [1, 1, 2] dtD [1, 2]) (mkArr [1, 1, 2] dtD [10, 20]) =
      some (mkArr [1, 1, 2] dtD [11, 99]) ∧
    (99 : Int) ≠ 2 + 20 := by
  refine ⟨by decide, by decide⟩

/-- C4 as amended: `add` and `subtract` check rank, dtype and every axis
extent, but iterate only `dimensions[0] * dimensions[1]` elements — the
element count of a rank-2 array.  For rank-2 arrays of dtype double or
float (with no caller-supplied output) every one of the `d0 * d1` result
elements is the elementwise sum (respectively difference). -/
theorem C4_elementwise_rank2 (a b : ndarray) (d0 d1 : Nat)
    (hda : a.dims = [d0, d1]) (hdb : b.dims = a.dims) (hdt : b.dtype = a.dtype)
    (hft : a.dtype = dtD ∨ a.dtype = dtF) :
    ∃ r s, ndarray_add none a b = some r ∧ ndarray_subtract none a b = some s ∧
      r.dims = [d0, d1] ∧ s.dims = [d0, d1] ∧
      ∀ i < d0 * d1,
        r.data.getD i 0 = a.data.getD i 0 + b.data.getD i 0 ∧
        s.data.getD i 0 = a.data.getD i 0 - b.data.getD i 0 := by
  have hsm := shapesMatch_of_eq a b hdb
  have hlen : b.dims.length = a.dims.length := by rw [hdb]
  have hcnt : a.dims.getD 0 0 * a.dims.getD 1 0 = d0 * d1 := by rw [hda]; rfl
  have hinit : (ndarray_create a.dims a.dtype).data.length = d0 * d1 := by
    simp [ndarray_create, hda, calculate_size_pair]
  refine ⟨_, _, ndarray_add_eq a b none hlen hdt hsm,
    ndarray_subtract_eq a b none hlen hdt hsm, hda, hda, ?_⟩
  intro i hi
  constructor
  · exact binop_loop_getD _ a.dtype a.data b.data _ _ hft
      (by rw [hcnt]; exact le_of_eq hinit.symm) i (by rw [hcnt]; exact hi)
  · exact binop_loop_getD _ a.dtype a.data b.data _ _ hft
      (by rw [hcnt]; exact le_of_eq hinit.symm) i (by rw [hcnt]; exact hi)

/-- Witness for C4 as amended, on `A = [[1,2],[3,4]]`, `B = [[5,6],[7,8]]`
(spec scenario 3). -/
theorem C4_elementwise_rank2_witness :
    ∃ r s,
      ndarray_add none (mkArr [2, 2] dtD [1, 2, 3, 4])
        (mkArr [2, 2] dtD [5, 6, 7, 8]) = some r ∧
      ndarray_subtract none (mkArr [2, 2] dtD [1, 2, 3, 4])
        (mkArr [2, 2] dtD [5, 6, 7, 8]) = some s ∧
      r.dims = [2, 2] ∧ s.dims = [2, 2] ∧
      ∀ i < 2 * 2,
        r.data.getD i 0 =
          (mkArr [2, 2] dtD [1, 2, 3, 4]).data.getD i 0 +
            (mkArr [2, 2] dtD [5, 6, 7, 8]).data.getD i 0 ∧
        s.data.getD i 0 =
          (mkArr [2, 2] dtD [1, 2, 3, 4]).data.getD i 0 -
            (mkArr [2, 2] dtD [5, 6, 7, 8]).data.getD i 0 :=
  C4_elementwise_rank2 (mkArr [2, 2] dtD [1, 2, 3, 4])
    (mkArr [2, 2] dtD [5, 6, 7, 8]) 2 2 rfl rfl rfl (Or.inl rfl)

/-- C8, counterexample: `add` on two `1x1` arrays of the unsigned 64-bit
integer tag (`'i'`) holding 1 and 2, with a caller-supplied output holding
the sentinel 99, silently leaves the output untouched (`99`, not `1 + 2`)
and reports no error at all. -/
theorem C8_counterexample :
    ndarray_add (some (mkArr [1, 1] dtI [99])) (mkArr [1, 1] dtI [1])
        (mkArr [1, 1] dtI [2]) =
      some (mkArr [1, 1] dtI [99]) ∧
    (99 : Int) ≠ 1 + 2 := by
  refine ⟨by decide, by decide⟩

/-- C8 as amended: the arithmetic kernels dispatch only on the
double-precision and single-precision tags; for the unsigned 64-bit tag and
every other tag the elementwise loops write nothing, the output is returned
unchanged and no `UnsupportedDtypeError` exists.  The element-size registry
maps `'d'` to 8, `'f'` to 4 and `'i'` to 8, and falls back to the raw tag
value when it is below 8 and to 1 otherwise. -/
theorem C8_unhandled_dtype (a b res : ndarray)
    (h1 : a.dtype ≠ dtD) (h2 : a.dtype ≠ dtF)
    (hdb : b.dims = a.dims) (hdt : b.dtype = a.dtype) :
    ndarray_add (some res) a b = some res ∧
    ndarray_subtract (some res) a b = some res ∧
    calculate_type_size dtD = 8 ∧ calculate_type_size dtF = 4 ∧
    calculate_type_size dtI = 8 ∧
    (∀ t, t ≠ dtD → t ≠ dtF → t ≠ dtI → t < 8 → calculate_type_size t = t) ∧
    (∀ t, t ≠ dtD → t ≠ dtF → t ≠ dtI → 8 ≤ t → calculate_type_size t = 1) := by
  have hsm := shapesMatch_of_eq a b hdb
  have hlen : b.dims.length = a.dims.length := by rw [hdb]
  refine ⟨?_, ?_, by decide, by decide, by decide, ?_, ?_⟩
  · rw [ndarray_add_eq a b (some res) hlen hdt hsm,
      binopLoop_other _ _ _ _ _ _ h1 h2]
    rfl
  · rw [ndarray_subtract_eq a b (some res) hlen hdt hsm,
      binopLoop_other _ _ _ _ _ _ h1 h2]
    rfl
  · intro t ht1 ht2 ht3 ht4
    unfold calculate_type_size
    rw [if_neg ht1, if_neg ht2, if_neg ht3, if_pos ht4]
  · intro t ht1 ht2 ht3 ht4
    unfold calculate_type_size
    rw [if_neg ht1, if_neg ht2, if_neg ht3, if_neg (Nat.not_lt.mpr ht4)]

/-- Witness for C8 as amended, at the concrete unsigned 64-bit input of the
counterexample. -/
theorem C8_unhandled_dtype_witness :
    ndarray_add (some (mkArr [1, 1] dtI [99])) (mkArr [1, 1] dtI [1])
        (mkArr [1, 1] dtI [2]) = some (mkArr [1, 1] dtI [99]) ∧
    calculate_type_size dtI = 8 ∧ calculate_type_size 3 = 3 ∧
    calculate_type_size 9 = 1 :=
  have h := C8_unhandled_dtype (mkArr [1, 1] dtI [1]) (mkArr [1, 1] dtI [2])
    (mkArr [1, 1] dtI [99]) (by decide) (by decide) rfl rfl
  ⟨h.1, h.2.2.2.2.1, h.2.2.2.2.2.1 3 (by decide) (by decide) (by decide) (by decide),
    h.2.2.2.2.2.2 9 (by decide) (by decide) (by decide) (by decide)⟩

/-- C9, counterexample: `transpose` of the rank-2 unsigned 64-bit array
`[[5, 7]]` returns the swapped shape `[2, 1]` but never copies a single
element (the copy loop handles only dtype `'d'` and `'f'`), so the result
holds the uninitialized buffer (junk, modelled as 0) where the claim
requires `result[0,0] = A[0,0] = 5`. -/
theorem C9_counterexample :
    ndarray_transpose (mkArr [1, 2] dtI [5, 7]) =
      some (mkArr [2, 1] dtI [0, 0]) ∧
    (0 : Int) ≠ 5 := by
  refine ⟨by decide, by decide⟩

/-- C9 as amended: `transpose` fails (returns null) for every array of rank
not 2; on a rank-2 array of dtype double or float it returns a fresh array
of swapped shape `[d1, d0]` with `result[j, i] = A[i, j]` for all in-range
`i, j`, and transposing again recovers `A` in shape and every element.  For
any other dtype the result has the swapped shape but unwritten contents. -/
theorem C9_transpose_float (a : ndarray) (d0 d1 : Nat)
    (hda : a.dims = [d0, d1]) (hft : a.dtype = dtD ∨ a.dtype = dtF) :
    (∀ b : ndarray, b.dims.length ≠ 2 → ndarray_transpose b = none) ∧
    ∃ r, ndarray_transpose a = some r ∧
      r.dims = [d1, d0] ∧ r.dtype = a.dtype ∧
      (∀ i < d0, ∀ j < d1,
        r.data.getD (j * d0 + i) 0 = a.data.getD (i * d1 + j) 0) ∧
      ∃ r2, ndarray_transpose r = some r2 ∧ r2.dims = [d0, d1] ∧
        ∀ i < d0, ∀ j < d1,
          r2.data.getD (i * d1 + j) 0 = a.data.getD (i * d1 + j) 0 := by
  constructor
  · intro b hb
    unfold ndarray_transpose
    rw [if_pos hb]
  · have hinem : (ndarray_create [d1, d0] a.dtype).data.length = d1 * d0 := by
      simp [ndarray_create, calculate_size_pair]
    have helem : ∀ i < d0, ∀ j < d1,
        ((List.range d0).foldl (fun d i =>
          (List.range d1).foldl (fun d j =>
            d.set (j * d0 + i) (a.data.getD (i * d1 + j) 0)) d)
          (ndarray_create [d1, d0] a.dtype).data).getD (j * d0 + i) 0 =
          a.data.getD (i * d1 + j) 0 := by
      refine foldl2_set_range_getD _ (fun i j => j * d0 + i) d0 d1 _ ?_ ?_
      · intro i1 h1 j1 hj1 i2 h2 j2 hj2 he
        have := pair_inj d0 j1 i1 j2 i2 h1 h2 he
        exact ⟨this.2, this.1⟩
      · intro i hi j hj
        rw [hinem]
        exact pair_lt d0 j i d1 hj hi
    refine ⟨_, ndarray_transpose_eq a d0 d1 hda hft, rfl, rfl, helem, ?_⟩
    have hft2 : (setData (ndarray_create [d1, d0] a.dtype)
        ((List.range d0).foldl (fun d i =>
          (List.range d1).foldl (fun d j =>
            d.set (j * d0 + i) (a.data.getD (i * d1 + j) 0)) d)
          (ndarray_create [d1, d0] a.dtype).data)).dtype = dtD ∨
        (setData (ndarray_create [d1, d0] a.dtype)
        ((List.range d0).foldl (fun d i =>
          (List.range d1).foldl (fun d j =>
            d.set (j * d0 + i) (a.data.getD (i * d1 + j) 0)) d)
          (ndarray_create [d1, d0] a.dtype).data)).dtype = dtF := hft
    refine ⟨_, ndarray_transpose_eq _ d1 d0 rfl hft2, rfl, ?_⟩
    intro i hi j hj
    have hinem2 : (ndarray_create [d0, d1]
        (setData (ndarray_create [d1, d0] a.dtype)
          ((List.range d0).foldl (fun d i =>
            (List.range d1).foldl (fun d j =>
              d.set (j * d0 + i) (a.data.getD (i * d1 + j) 0)) d)
            (ndarray_create [d1, d0] a.dtype).data)).dtype).data.length =
        d0 * d1 := by
      simp [ndarray_create, setData, calculate_size_pair]
    have h2 := foldl2_set_range_getD
      (fun i2 j2 => (setData (ndarray_create [d1, d0] a.dtype)
        ((List.range d0).foldl (fun d i =>
          (List.range d1).foldl (fun d j =>
            d.set (j * d0 + i) (a.data.getD (i * d1 + j) 0)) d)
          (ndarray_create [d1, d0] a.dtype).data)).data.getD (i2 * d0 + j2) 0)
      (fun i2 j2 => j2 * d1 + i2) d1 d0 _
      (fun i1 h1 j1 hj1 i2 h2 j2 hj2 he => by
        have := pair_inj d1 j1 i1 j2 i2 h1 h2 he
        exact ⟨this.2, this.1⟩)
      (fun i2 hi2 j2 hj2 => by
        rw [hinem2]
        exact pair_lt d1 j2 i2 d0 hj2 hi2) j hj i hi
    exact h2.trans (helem i hi j hj)

/-- Witness for C9 as amended, on spec scenario 4: `transpose` of the `2x3`
double array `[[1,2,3],[4,5,6]]` (whose transpose is `[[1,4],[2,5],[3,6]]`),
with the involution recovering the original. -/
theorem C9_transpose_float_witness :
    (∀ b : ndarray, b.dims.length ≠ 2 → ndarray_transpose b = none) ∧
    ∃ r, ndarray_transpose (mkArr [2, 3] dtD [1, 2, 3, 4, 5, 6]) = some r ∧
      r.dims = [3, 2] ∧ r.dtype = (mkArr [2, 3] dtD [1, 2, 3, 4, 5, 6]).dtype ∧
      (∀ i < 2, ∀ j < 3,
        r.data.getD (j * 2 + i) 0 =
          (mkArr [2, 3] dtD [1, 2, 3, 4, 5, 6]).data.getD (i * 3 + j) 0) ∧
      ∃ r2, ndarray_transpose r = some r2 ∧ r2.dims = [2, 3] ∧
        ∀ i < 2, ∀ j < 3,
          r2.data.getD (i * 3 + j) 0 =
            (mkArr [2, 3] dtD [1, 2, 3, 4, 5, 6]).data.getD (i * 3 + j) 0 :=
  C9_transpose_float (mkArr [2, 3] dtD [1, 2, 3, 4, 5, 6]) 2 3 rfl (Or.inl rfl)

/-- C7, counterexample: `subsample` of the `1x1` unsigned 64-bit array
`[[5]]` with `n = 1` allocates the result but copies nothing (the copy loop
handles only dtype `'d'` and `'f'`), so the single returned row holds the
uninitialized buffer (junk, modelled as 0) and is not identical to any row
of `A` (whose only row is `[5]`). -/
theorem C7_counterexample :
    ndarray_subsample [0] (mkArr [1, 1] dtI [5]) 1 =
      some (mkArr [1, 1] dtI [0]) ∧
    (0 : Int) ≠ 5 := by
  refine ⟨by decide, by decide⟩

/-- C7 as amended: `subsample(A, n)` fails whenever `n > A.shape[0]`;
otherwise, for rank-2 arrays of dtype double or float, it returns a fresh
array of shape `[n, d1]` whose row `i` is element-for-element identical to
row `p i` of `A`, where `p` is the swap-shuffled index list — a permutation
of `0..d0-1`, hence with pairwise-distinct, in-range entries, so no source
row index is used twice.  This holds for every random oracle. -/
theorem C7_subsample_rank2 (rands : List Nat) (a : ndarray) (d0 d1 n : Nat)
    (hda : a.dims = [d0, d1]) (hft : a.dtype = dtD ∨ a.dtype = dtF)
    (hn : n ≤ d0) :
    (∀ m, d0 < m → ndarray_subsample rands a m = none) ∧
    (shuffleIndices rands d0).Perm (List.range d0) ∧
    (shuffleIndices rands d0).Nodup ∧
    (∀ i < d0, (shuffleIndices rands d0).getD i 0 < d0) ∧
    ∃ r, ndarray_subsample rands a n = some r ∧
      r.dims = [n, d1] ∧ r.dtype = a.dtype ∧
      ∀ i < n, ∀ j < d1,
        r.data.getD (i * d1 + j) 0 =
          a.data.getD ((shuffleIndices rands d0).getD i 0 * d1 + j) 0 := by
  have hperm := shuffleIndices_perm rands d0
  have hlen : (shuffleIndices rands d0).length = d0 := by
    rw [hperm.length_eq, List.length_range]
  refine ⟨?_, hperm, hperm.nodup_iff.mpr (List.nodup_range d0), ?_, ?_⟩
  · intro m hm
    unfold ndarray_subsample
    rw [if_pos (show a.dims.getD 0 0 < m by rw [hda]; exact hm)]
  · intro i hi
    have hilt : i < (shuffleIndices rands d0).length := by
      rw [hlen]; exact hi
    have hmem : (shuffleIndices rands d0).getD i 0 ∈ shuffleIndices rands d0 := by
      rw [List.getD_eq_getElem _ 0 hilt]
      exact List.getElem_mem hilt
    exact List.mem_range.mp (hperm.mem_iff.mp hmem)
  · have hinit : (ndarray_create [n, d1] a.dtype).data.length = n * d1 := by
      simp [ndarray_create, calculate_size_pair]
    refine ⟨_, ndarray_subsample_eq rands a d0 d1 n hda hn hft, rfl, rfl, ?_⟩
    refine foldl2_set_range_getD _ (fun i j => i * d1 + j) n d1 _ ?_ ?_
    · intro i1 h1 j1 hj1 i2 h2 j2 hj2 he
      exact pair_inj d1 i1 j1 i2 j2 hj1 hj2 he
    · intro i hi j hj
      rw [hinit]
      exact pair_lt d1 i j n hi hj

/-- Witness for C7 as amended: subsampling 2 rows of the `3x2` double array
`[[1,2],[3,4],[5,6]]` under the oracle `[1,0,2]`. -/
theorem C7_subsample_rank2_witness :
    (∀ m, 3 < m →
      ndarray_subsample [1, 0, 2] (mkArr [3, 2] dtD [1, 2, 3, 4, 5, 6]) m = none) ∧
    (shuffleIndices [1, 0, 2] 3).Perm (List.range 3) ∧
    (shuffleIndices [1, 0, 2] 3).Nodup ∧
    (∀ i < 3, (shuffleIndices [1, 0, 2] 3).getD i 0 < 3) ∧
    ∃ r, ndarray_subsample [1, 0, 2] (mkArr [3, 2] dtD [1, 2, 3, 4, 5, 6]) 2 =
        some r ∧
      r.dims = [2, 2] ∧ r.dtype = (mkArr [3, 2] dtD [1, 2, 3, 4, 5, 6]).dtype ∧
      ∀ i < 2, ∀ j < 2,
        r.data.getD (i * 2 + j) 0 =
          (mkArr [3, 2] dtD [1, 2, 3, 4, 5, 6]).data.getD
            ((shuffleIndices [1, 0, 2] 3).getD i 0 * 2 + j) 0 :=
  C7_subsample_rank2 [1, 0, 2] (mkArr [3, 2] dtD [1, 2, 3, 4, 5, 6]) 3 2 2 rfl
    (Or.inl rfl) (by decide)

/-- C10: on any live array (derived strides, buffer of `product(shape)`
elements, element size positive) and any in-bounds index tuple of full rank,
writing `v` through `set` and reading the same cell back through `get`
yields exactly `v`: the common unchecked offset `Σ idx[i]*strides[i]` is a
multiple of the element size and addresses the same buffer slot both
times. -/
theorem C10_set_get_roundtrip (a : ndarray) (idx : List Nat) (v : Int)
    (hstr : a.strides = computeStrides (calculate_type_size a.dtype) a.dims)
    (hdata : a.data.length = calculate_size a.dims)
    (hlen : idx.length = a.dims.length)
    (hb : ∀ i < a.dims.length, idx.getD i 0 < a.dims.getD i 0)
    (hts : 0 < calculate_type_size a.dtype) :
    ndarray_get_val (ndarray_set_point a idx v) idx = v := by
  have h1 := foldl_add_eq_sum
    (fun i => a.strides.getD i 0 * idx.getD i 0) 0 a.dims.length
  have h2 : ∑ i ∈ Finset.range a.dims.length,
      a.strides.getD i 0 * idx.getD i 0 =
      calculate_type_size a.dtype * sumIdx a.dims idx := by
    rw [hstr]
    exact sum_strides_eq _ a.dims idx hlen
  have hoff : ndarray_offset a idx =
      calculate_type_size a.dtype * sumIdx a.dims idx := by
    unfold ndarray_offset
    exact h1.trans (by rw [Nat.zero_add]; exact h2)
  show (a.data.set (ndarray_offset a idx / calculate_type_size a.dtype) v).getD
    (ndarray_offset a idx / calculate_type_size a.dtype) 0 = v
  rw [hoff, Nat.mul_div_cancel_left _ hts]
  refine getD_set_eq _ _ _ ?_
  rw [hdata, calculate_size_eq_prod]
  exact sumIdx_lt a.dims idx hlen hb

/-- Witness for C10 on `create([2,3], float64)` at index `[1,2]` with value
7 (the shape of spec scenario 1, the pattern of scenario 2). -/
theorem C10_set_get_roundtrip_witness :
    ndarray_get_val (ndarray_set_point (ndarray_create [2, 3] dtD) [1, 2] 7)
      [1, 2] = 7 :=
  C10_set_get_roundtrip (ndarray_create [2, 3] dtD) [1, 2] 7 rfl rfl rfl
    (by decide) (by decide)
